import Mathlib

/-!
Verification of the RH_BOT trading bot core against its specification.

The Python source is shallowly embedded in Lean 4:
* Python floats are modelled as exact rationals (`ℚ`); the explicit
  floating-point epsilons of the source (`1e-12` cash/dust tolerances) are
  kept as the literal rationals the source writes.
* Python `round(x, n)` (banker's rounding) is modelled as round-half-to-even
  on rationals (`pyRound`).
* `collections.deque(maxlen=m)` is modelled as a list together with the
  evict-oldest push `dequePush`.
* Python functions that raise on bad arguments are modelled as
  `Except String`; functions that return `None`/values return `Option`.
* Wall-clock and monotonic time are passed in explicitly as parameters
  (`time.time()`, `time.monotonic()`, `datetime.utcnow().date()`), since the
  source only reads them.
-/

/-- Round-half-to-even on an exact rational, the semantics of Python's
`round` builtin on the idealised (exact) value. -/
def pyRoundHalfEven (x : ℚ) : ℤ :=
  let f := ⌊x⌋
  let r := x - f
  if r < 1/2 then f
  else if 1/2 < r then f + 1
  else if f % 2 = 0 then f else f + 1

/-- Python `round(x, d)` for nonnegative digit counts, on exact rationals. -/
def pyRound (x : ℚ) (d : ℕ) : ℚ :=
  (pyRoundHalfEven (x * 10 ^ d) : ℚ) / 10 ^ d

/-- The last `m` elements of a list: the contents of a `deque(maxlen := m)`
that has been fed the whole list. -/
def lastN (m : ℕ) (xs : List ℚ) : List ℚ :=
  xs.drop (xs.length - m)

/-- `collections.deque(maxlen := m).append x`: drop the oldest element when
the deque is full, then append on the right.  (States reached from an empty
deque always satisfy `xs.length ≤ m`, where the test below coincides with the
source's `len = maxlen` eviction test.) -/
def dequePush (m : ℕ) (xs : List ℚ) (x : ℚ) : List ℚ :=
  if m ≤ xs.length then xs.tail ++ [x] else xs ++ [x]

/-- Arithmetic mean of a window, `sum(w) / len(w)`. -/
def listMean (xs : List ℚ) : ℚ :=
  xs.sum / (xs.length : ℚ)

/-- Trade signals emitted by the strategies (`"buy"` / `"sell"` strings in
the source). -/
inductive Signal where
  | buy
  | sell
deriving DecidableEq

/-- The cross state the source computes on a ready tick:
`cross = 1 if sp >= lp else -1` where `sp`/`lp` are the short/long window
means. -/
def smaCross (s l : List ℚ) : ℤ :=
  if listMean l ≤ listMean s then 1 else -1

/-- `strategy.SMAStrategy`: short/long window lengths, the two price deques
and the previous cross state (`-1` below, `+1` above, `None` before the
first ready tick). -/
structure SMAState where
  short : ℕ
  long : ℕ
  s : List ℚ
  l : List ℚ
  prevCross : Option ℤ
deriving DecidableEq

namespace SMAState

/-- `SMAStrategy.__init__`: raises unless `short < long`; starts with empty
windows and no cross state. -/
def mk0 (short long : ℕ) : Except String SMAState :=
  if long ≤ short then .error "short must be < long"
  else .ok ⟨short, long, [], [], none⟩

/-- `SMAStrategy.update`: push the price into both windows; while the long
window is not full return `None`; otherwise compare the two means
(`cross = 1` iff `sp >= lp`), emit a signal only on a change of cross state,
and never on the tick that first establishes it. -/
def update (st : SMAState) (price : ℚ) : Option Signal × SMAState :=
  let s := dequePush st.short st.s price
  let l := dequePush st.long st.l price
  if l.length < st.long then (none, { st with s := s, l := l })
  else
    let cross : ℤ := smaCross s l
    match st.prevCross with
    | none => (none, { st with s := s, l := l, prevCross := some cross })
    | some pc =>
        let signal : Option Signal :=
          if pc = -1 ∧ cross = 1 then some .buy
          else if pc = 1 ∧ cross = -1 then some .sell
          else none
        (signal, { st with s := s, l := l, prevCross := some cross })

/-- Feed a list of prices tick by tick, collecting the per-tick outputs. -/
def runAcc (st : SMAState) : List ℚ → List (Option Signal)
  | [] => []
  | p :: rest =>
      let r := st.update p
      r.1 :: r.2.runAcc rest

end SMAState

/-- The short-vs-long relation of the code at tick `n` (0-indexed): `1` when
the short-window mean is at-or-above the long-window mean over the first
`n + 1` prices, `-1` otherwise. -/
def smaRelAt (S L : ℕ) (ps : List ℚ) (n : ℕ) : ℤ :=
  smaCross (lastN S (ps.take (n + 1))) (lastN L (ps.take (n + 1)))

/-- Closed form of the SMA strategy's output at tick `n`: nothing while the
long window is filling and on the baseline tick, then a signal exactly on a
change of `smaRelAt`. -/
def smaOutAt (S L : ℕ) (ps : List ℚ) (n : ℕ) : Option Signal :=
  if n + 1 ≤ L then none
  else if smaRelAt S L ps (n - 1) = -1 ∧ smaRelAt S L ps n = 1 then some .buy
  else if smaRelAt S L ps (n - 1) = 1 ∧ smaRelAt S L ps n = -1 then some .sell
  else none

theorem lastN_length (m : ℕ) (xs : List ℚ) :
    (lastN m xs).length = min xs.length m := by
  simp only [lastN, List.length_drop]
  omega

theorem lastN_eq_of_le {m : ℕ} {xs : List ℚ} (h : xs.length ≤ m) :
    lastN m xs = xs := by
  simp [lastN, Nat.sub_eq_zero_of_le h]

/-- Pushing onto a full-or-filling window is taking the last `m` elements of
the extended price history. -/
theorem dequePush_lastN (m : ℕ) (hm : 0 < m) (xs : List ℚ) (x : ℚ) :
    dequePush m (lastN m xs) x = lastN m (xs ++ [x]) := by
  rcases le_or_lt m xs.length with h | h
  · have hfull : (lastN m xs).length = m := by rw [lastN_length]; omega
    unfold dequePush
    rw [hfull, if_pos le_rfl]
    unfold lastN
    rw [List.tail_drop]
    have hlen1 : (xs ++ [x]).length - m = xs.length - m + 1 := by simp; omega
    rw [hlen1]
    have h1 : xs.length - m + 1 ≤ xs.length := by omega
    rw [List.drop_append_of_le_length h1]
  · have hxs : lastN m xs = xs := lastN_eq_of_le (le_of_lt h)
    unfold dequePush
    rw [hxs, if_neg (by omega)]
    have h1 : (xs ++ [x]).length ≤ m := by simp; omega
    rw [lastN_eq_of_le h1]

theorem smaRelAt_congr {S L : ℕ} {n : ℕ} (pre rest : List ℚ)
    (h : n + 1 ≤ pre.length) :
    smaRelAt S L (pre ++ rest) n = smaRelAt S L pre n := by
  unfold smaRelAt
  rw [List.take_append_of_le_length h]

theorem smaOutAt_congr {S L : ℕ} {n : ℕ} (pre rest : List ℚ)
    (h : n + 1 ≤ pre.length) :
    smaOutAt S L (pre ++ rest) n = smaOutAt S L pre n := by
  unfold smaOutAt
  rw [smaRelAt_congr pre rest h, smaRelAt_congr pre rest (by omega)]

/-- The state invariant tying an `SMAState` to the price history `pre` that
produced it. -/
def SMAInv (S L : ℕ) (pre : List ℚ) (st : SMAState) : Prop :=
  st.short = S ∧ st.long = L ∧ st.s = lastN S pre ∧ st.l = lastN L pre ∧
    st.prevCross =
      (if pre.length < L then none else some (smaRelAt S L pre (pre.length - 1)))

theorem sma_update_step {S L : ℕ} (hS : 0 < S) (hSL : S < L)
    (pre : List ℚ) (st : SMAState) (hinv : SMAInv S L pre st) (p : ℚ) :
    (st.update p).1 = smaOutAt S L (pre ++ [p]) pre.length ∧
      SMAInv S L (pre ++ [p]) (st.update p).2 := by
  obtain ⟨sh, lo, ws, wl, pcr⟩ := st
  obtain ⟨h1, h2, h3, h4, h5⟩ := hinv
  simp only at h1 h2 h3 h4 h5
  subst sh; subst lo; subst ws; subst wl
  have hL : 0 < L := lt_trans hS hSL
  have hpushS : dequePush S (lastN S pre) p = lastN S (pre ++ [p]) :=
    dequePush_lastN S hS pre p
  have hpushL : dequePush L (lastN L pre) p = lastN L (pre ++ [p]) :=
    dequePush_lastN L hL pre p
  have hlen : (lastN L (pre ++ [p])).length = min (pre.length + 1) L := by
    rw [lastN_length]; simp
  have hlenApp : (pre ++ [p]).length = pre.length + 1 := by simp
  have htake : (pre ++ [p]).take (pre.length + 1) = pre ++ [p] := by
    rw [← hlenApp, List.take_length]
  have hrel : smaCross (lastN S (pre ++ [p])) (lastN L (pre ++ [p]))
      = smaRelAt S L (pre ++ [p]) pre.length := by
    unfold smaRelAt
    rw [htake]
  simp only [SMAState.update, hpushS, hpushL, hlen]
  by_cases hfill : pre.length + 1 < L
  · rw [if_pos (show min (pre.length + 1) L < L by omega)]
    constructor
    · unfold smaOutAt
      rw [if_pos (show pre.length + 1 ≤ L by omega)]
    · refine ⟨rfl, rfl, rfl, rfl, ?_⟩
      simp only
      rw [h5, if_pos (show pre.length < L by omega),
        if_pos (show (pre ++ [p]).length < L by rw [hlenApp]; omega)]
  · rw [if_neg (show ¬ min (pre.length + 1) L < L by omega)]
    by_cases hbase : pre.length < L
    · have hpcr : pcr = none := by rw [h5, if_pos hbase]
      subst hpcr
      simp only [hrel]
      constructor
      · unfold smaOutAt
        rw [if_pos (show pre.length + 1 ≤ L by omega)]
      · refine ⟨rfl, rfl, rfl, rfl, ?_⟩
        simp only
        rw [if_neg (show ¬ (pre ++ [p]).length < L by rw [hlenApp]; omega),
          hlenApp, Nat.add_sub_cancel]
    · have hpcr : pcr = some (smaRelAt S L pre (pre.length - 1)) := by
        rw [h5, if_neg hbase]
      subst hpcr
      have hrelprev : smaRelAt S L pre (pre.length - 1)
          = smaRelAt S L (pre ++ [p]) (pre.length - 1) :=
        (smaRelAt_congr pre [p] (by omega)).symm
      simp only [hrel]
      constructor
      · unfold smaOutAt
        rw [if_neg (show ¬ pre.length + 1 ≤ L by omega), hrelprev]
      · refine ⟨rfl, rfl, rfl, rfl, ?_⟩
        simp only
        rw [if_neg (show ¬ (pre ++ [p]).length < L by rw [hlenApp]; omega),
          hlenApp, Nat.add_sub_cancel]

theorem sma_runAcc_char {S L : ℕ} (hS : 0 < S) (hSL : S < L) :
    ∀ (rest pre : List ℚ) (st : SMAState), SMAInv S L pre st →
      st.runAcc rest =
        (List.range rest.length).map
          (fun k => smaOutAt S L (pre ++ rest) (pre.length + k))
  | [], _, st, _ => by simp [SMAState.runAcc]
  | p :: rest, pre, st, hinv => by
      have hstep := sma_update_step hS hSL pre st hinv p
      have hrec :=
        sma_runAcc_char hS hSL rest (pre ++ [p]) (st.update p).2 hstep.2
      have hassoc : (pre ++ [p]) ++ rest = pre ++ p :: rest := by simp
      have hhead :
          (st.update p).1 = smaOutAt S L (pre ++ p :: rest) pre.length := by
        rw [hstep.1, ← hassoc, smaOutAt_congr (pre ++ [p]) rest (by simp)]
      simp only [SMAState.runAcc, hhead, hrec, hassoc, List.length_cons,
        List.range_succ_eq_map, List.map_cons, List.map_map]
      congr 1
      apply List.map_congr_left
      intro k _
      simp only [Function.comp_apply, List.length_append, List.length_singleton]
      congr 1
      omega

theorem SMAState.mk0_ok {S L : ℕ} {st0 : SMAState}
    (hmk : SMAState.mk0 S L = .ok st0) :
    S < L ∧ st0 = ⟨S, L, [], [], none⟩ := by
  unfold SMAState.mk0 at hmk
  split at hmk
  · exact absurd hmk (by simp)
  · rename_i h
    injection hmk with h2
    exact ⟨by omega, h2.symm⟩

theorem SMAInv_init {S L : ℕ} (hL : 0 < L) :
    SMAInv S L [] ⟨S, L, [], [], none⟩ := by
  refine ⟨rfl, rfl, by simp [lastN], by simp [lastN], ?_⟩
  simp only [List.length_nil]
  rw [if_pos hL]

theorem sma_run_getElem {S L : ℕ} {st0 : SMAState} (hS : 0 < S)
    (hmk : SMAState.mk0 S L = .ok st0) (ps : List ℚ) {n : ℕ}
    (hn : n < ps.length) :
    (st0.runAcc ps)[n]? = some (smaOutAt S L ps n) := by
  obtain ⟨hSL, rfl⟩ := SMAState.mk0_ok hmk
  rw [sma_runAcc_char hS hSL ps [] _ (SMAInv_init (lt_trans hS hSL))]
  rw [List.getElem?_map, List.getElem?_range hn]
  simp

theorem sma_run_length {S L : ℕ} {st0 : SMAState} (hS : 0 < S)
    (hmk : SMAState.mk0 S L = .ok st0) (ps : List ℚ) :
    (st0.runAcc ps).length = ps.length := by
  obtain ⟨hSL, rfl⟩ := SMAState.mk0_ok hmk
  rw [sma_runAcc_char hS hSL ps [] _ (SMAInv_init (lt_trans hS hSL))]
  simp

theorem smaRelAt_cases (S L : ℕ) (ps : List ℚ) (n : ℕ) :
    smaRelAt S L ps n = 1 ∨ smaRelAt S L ps n = -1 := by
  unfold smaRelAt smaCross
  split_ifs <;> simp

theorem smaOutAt_buy_iff {S L : ℕ} {ps : List ℚ} {n : ℕ} :
    smaOutAt S L ps n = some .buy ↔
      L < n + 1 ∧ smaRelAt S L ps (n - 1) = -1 ∧ smaRelAt S L ps n = 1 := by
  unfold smaOutAt
  split_ifs with h1 h2 h3 <;> simp_all

theorem smaOutAt_sell_iff {S L : ℕ} {ps : List ℚ} {n : ℕ} :
    smaOutAt S L ps n = some .sell ↔
      L < n + 1 ∧ smaRelAt S L ps (n - 1) = 1 ∧ smaRelAt S L ps n = -1 := by
  unfold smaOutAt
  split_ifs with h1 h2 h3 <;> simp_all

theorem smaOutAt_none_of_eq {S L : ℕ} {ps : List ℚ} {n : ℕ}
    (h : smaRelAt S L ps (n - 1) = smaRelAt S L ps n) :
    smaOutAt S L ps n = none := by
  unfold smaOutAt
  rcases smaRelAt_cases S L ps n with hc | hc <;>
    split_ifs with h1 h2 h3 <;> simp_all

/-- The SPEC'S WORDS for the crossing relation, for comparison with the
code: the claim reads "buy when the short SMA crosses from below/equal to
strictly above the long SMA", i.e. the relation classes are
{strictly above} (`1`) versus {below or equal} (`-1`). -/
def smaSpecRelAt (S L : ℕ) (ps : List ℚ) (n : ℕ) : ℤ :=
  if listMean (lastN L (ps.take (n + 1))) < listMean (lastN S (ps.take (n + 1)))
  then 1 else -1

/-- The SPEC'S WORDS for the per-tick output of the SMA crossover, built
from `smaSpecRelAt` exactly as `smaOutAt` is built from `smaRelAt`. -/
def smaSpecOutAt (S L : ℕ) (ps : List ℚ) (n : ℕ) : Option Signal :=
  if n + 1 ≤ L then none
  else if smaSpecRelAt S L ps (n - 1) = -1 ∧ smaSpecRelAt S L ps n = 1 then
    some .buy
  else if smaSpecRelAt S L ps (n - 1) = 1 ∧ smaSpecRelAt S L ps n = -1 then
    some .sell
  else none

/-- C2, counterexample.  With `short = 1`, `long = 2` and prices
`[2, 1, 1]`, the code emits `buy` on the third tick, where the short SMA
merely EQUALS the long SMA (last conjunct): the short SMA never goes
strictly above the long SMA, so under the claim's words ("buy when the
short SMA crosses from below/equal to strictly above") no signal may ever
fire — the spec-worded output at that tick is `none`.  The code classifies
equality as "above" (`sp >= lp`), not "below". -/
theorem C2_sma_crossover_counterexample :
    SMAState.mk0 1 2 = .ok (⟨1, 2, [], [], none⟩ : SMAState) ∧
      (SMAState.runAcc ⟨1, 2, [], [], none⟩ [2, 1, 1])[2]? =
        some (some .buy) ∧
      smaSpecOutAt 1 2 [2, 1, 1] 2 = none ∧
      listMean (lastN 1 [(2 : ℚ), 1, 1]) = listMean (lastN 2 [(2 : ℚ), 1, 1]) := by
  refine ⟨by norm_num [SMAState.mk0], ?_, ?_, ?_⟩
  · norm_num [SMAState.runAcc, SMAState.update, dequePush, listMean, smaCross]
  · norm_num [smaSpecOutAt, smaSpecRelAt, listMean, lastN]
  · norm_num [listMean, lastN]

/-- C2, amended.  For an SMA crossover with `0 < short < long` (as enforced
by the constructor), `update` returns no signal until the long window holds
`long` samples and none on the first ready tick (the baseline); on every
later tick the output is `buy` exactly when the previous ready relation was
"strictly below" (`-1`) and the current one is "at-or-above" (`1`), `sell`
exactly on the mirror transition, and nothing when the relation is
unchanged.  (The claim's boundary is amended: the code computes
`cross = 1 iff sp >= lp`, so a buy fires on crossing from strictly-below to
at-or-EQUAL, not only to strictly-above, and symmetrically for sell.) -/
theorem C2_sma_crossover_amended (S L : ℕ) (st0 : SMAState) (ps : List ℚ)
    (hS : 0 < S) (hmk : SMAState.mk0 S L = .ok st0) (n : ℕ)
    (hn : n < ps.length) :
    (st0.runAcc ps)[n]? = some (smaOutAt S L ps n) ∧
      (n + 1 ≤ L → smaOutAt S L ps n = none) ∧
      (L < n + 1 →
        (smaOutAt S L ps n = some .buy ↔
          smaRelAt S L ps (n - 1) = -1 ∧ smaRelAt S L ps n = 1) ∧
        (smaOutAt S L ps n = some .sell ↔
          smaRelAt S L ps (n - 1) = 1 ∧ smaRelAt S L ps n = -1) ∧
        (smaRelAt S L ps (n - 1) = smaRelAt S L ps n →
          smaOutAt S L ps n = none)) := by
  refine ⟨sma_run_getElem hS hmk ps hn, ?_, ?_⟩
  · intro hwarm
    unfold smaOutAt
    rw [if_pos hwarm]
  · intro hready
    refine ⟨?_, ?_, smaOutAt_none_of_eq⟩
    · rw [smaOutAt_buy_iff]
      constructor
      · rintro ⟨_, h⟩; exact h
      · intro h; exact ⟨hready, h⟩
    · rw [smaOutAt_sell_iff]
      constructor
      · rintro ⟨_, h⟩; exact h
      · intro h; exact ⟨hready, h⟩

theorem C2_sma_crossover_amended_witness :
    (SMAState.runAcc ⟨1, 2, [], [], none⟩ [2, 1, 1])[2]? =
      some (smaOutAt 1 2 [2, 1, 1] 2) :=
  (C2_sma_crossover_amended 1 2 ⟨1, 2, [], [], none⟩ [2, 1, 1]
    (by norm_num) (by norm_num [SMAState.mk0]) 2 (by norm_num)).1

/-- C8.  Over any price list, the SMA crossover never emits two `buy`
signals without a `sell` strictly between them: a buy leaves the cross state
at `1`, and the only way back to `-1` (required for the next buy) is a tick
whose relation change is exactly the sell transition. -/
theorem C8_sma_no_consecutive_buys (S L : ℕ) (st0 : SMAState) (ps : List ℚ)
    (hS : 0 < S) (hmk : SMAState.mk0 S L = .ok st0) (i j : ℕ) (hij : i < j)
    (hbi : (st0.runAcc ps)[i]? = some (some .buy))
    (hbj : (st0.runAcc ps)[j]? = some (some .buy)) :
    ∃ k, i < k ∧ k < j ∧ (st0.runAcc ps)[k]? = some (some .sell) := by
  have hlen := sma_run_length hS hmk ps
  have hjlen : j < ps.length := by
    by_contra hj
    rw [List.getElem?_eq_none (by omega)] at hbj
    exact Option.noConfusion hbj
  have hilen : i < ps.length := by omega
  rw [sma_run_getElem hS hmk ps hilen] at hbi
  rw [sma_run_getElem hS hmk ps hjlen] at hbj
  have hbi' : smaOutAt S L ps i = some .buy := Option.some.inj hbi
  have hbj' : smaOutAt S L ps j = some .buy := Option.some.inj hbj
  rw [smaOutAt_buy_iff] at hbi' hbj'
  obtain ⟨hiL, _, hri⟩ := hbi'
  obtain ⟨_, hrj, _⟩ := hbj'
  have hj2 : i + 2 ≤ j := by
    rcases Nat.lt_or_ge j (i + 2) with h | h
    · have hji : j = i + 1 := by omega
      subst hji
      rw [Nat.add_sub_cancel, hri] at hrj
      exact absurd hrj (by decide)
    · exact h
  have hex : ∃ m, smaRelAt S L ps (i + 1 + m) = -1 := by
    refine ⟨j - 1 - (i + 1), ?_⟩
    have he : i + 1 + (j - 1 - (i + 1)) = j - 1 := by omega
    rw [he]
    exact hrj
  have hk0 : smaRelAt S L ps (i + 1 + Nat.find hex) = -1 := Nat.find_spec hex
  have hk0le : Nat.find hex ≤ j - 1 - (i + 1) := by
    apply Nat.find_min' hex
    have he : i + 1 + (j - 1 - (i + 1)) = j - 1 := by omega
    rw [he]
    exact hrj
  have hkj : i + 1 + Nat.find hex < j := by omega
  have hkprev : smaRelAt S L ps (i + 1 + Nat.find hex - 1) = 1 := by
    rcases Nat.eq_zero_or_pos (Nat.find hex) with h0 | h0
    · rw [h0]
      simpa using hri
    · have hm := Nat.find_min hex (m := Nat.find hex - 1) (by omega)
      have he : i + 1 + (Nat.find hex - 1) = i + 1 + Nat.find hex - 1 := by
        omega
      rw [he] at hm
      rcases smaRelAt_cases S L ps (i + 1 + Nat.find hex - 1) with h | h
      · exact h
      · exact absurd h hm
  refine ⟨i + 1 + Nat.find hex, by omega, hkj, ?_⟩
  rw [sma_run_getElem hS hmk ps (by omega)]
  have hsell : smaOutAt S L ps (i + 1 + Nat.find hex) = some .sell := by
    rw [smaOutAt_sell_iff]
    exact ⟨by omega, hkprev, hk0⟩
  rw [hsell]

theorem C8_sma_no_consecutive_buys_witness :
    ∃ k, 2 < k ∧ k < 5 ∧
      (SMAState.runAcc ⟨1, 2, [], [], none⟩ [2, 1, 1, 2, 1, 1])[k]? =
        some (some .sell) :=
  C8_sma_no_consecutive_buys 1 2 ⟨1, 2, [], [], none⟩ [2, 1, 1, 2, 1, 1]
    (by norm_num) (by norm_num [SMAState.mk0]) 2 5 (by norm_num)
    (by norm_num [SMAState.runAcc, SMAState.update, dequePush, listMean,
      smaCross])
    (by norm_num [SMAState.runAcc, SMAState.update, dequePush, listMean,
      smaCross])

/-- `strategy.RSICalc` (Wilder-style RSI): window, previous price, and the
unbounded gain/loss deques trimmed manually to the window length. -/
structure RSICalc where
  window : ℤ
  prev : Option ℚ
  gains : List ℚ
  losses : List ℚ
deriving DecidableEq

namespace RSICalc

/-- `RSICalc.__init__`: raises unless `window > 0`. -/
def mk0 (window : ℤ) : Except String RSICalc :=
  if window ≤ 0 then .error "window must be > 0"
  else .ok ⟨window, none, [], []⟩

/-- `RSICalc.update`: first call only seeds `prev`; afterwards append the
tick's gain/|loss|, trim to the window, and once `window` deltas are held
return `100 − 100/(1 + RS)` (or `100` when the average loss is zero). -/
def update (st : RSICalc) (price : ℚ) : Option ℚ × RSICalc :=
  match st.prev with
  | none => (none, { st with prev := some price })
  | some prev =>
      let delta := price - prev
      let gains0 := st.gains ++ [max delta 0]
      let losses0 := st.losses ++ [abs (min delta 0)]
      let gains := if st.window < (gains0.length : ℤ) then gains0.tail else gains0
      let losses := if st.window < (gains0.length : ℤ) then losses0.tail else losses0
      let st1 := { st with prev := some price, gains := gains, losses := losses }
      if (gains.length : ℤ) < st.window then (none, st1)
      else
        let avg_gain := gains.sum / (st.window : ℚ)
        let avg_loss := losses.sum / (st.window : ℚ)
        if avg_loss = 0 then (some 100, st1)
        else (some (100 - 100 / (1 + avg_gain / avg_loss)), st1)

end RSICalc

/-- `strategy.ATRLite` (close-to-close ATR proxy): window, previous price,
and the bounded deque of absolute moves. -/
structure ATRLite where
  window : ℤ
  prev : Option ℚ
  moves : List ℚ
deriving DecidableEq

namespace ATRLite

/-- `ATRLite.__init__`: raises unless `window > 0`. -/
def mk0 (window : ℤ) : Except String ATRLite :=
  if window ≤ 0 then .error "window must be > 0"
  else .ok ⟨window, none, []⟩

/-- `ATRLite.update`: first call seeds `prev`; afterwards push
`|close_t − close_(t−1)|` and, once the window is full, return its mean. -/
def update (st : ATRLite) (price : ℚ) : Option ℚ × ATRLite :=
  match st.prev with
  | none => (none, { st with prev := some price })
  | some prev =>
      let moves := dequePush st.window.toNat st.moves (abs (price - prev))
      let st1 := { st with prev := some price, moves := moves }
      if (moves.length : ℤ) < st.window then (none, st1)
      else (some (moves.sum / (moves.length : ℚ)), st1)

end ATRLite

/-- `strategy.SwingConfig`, with the source's defaults. -/
structure SwingConfig where
  buy_pct : ℚ
  sell_pct : ℚ
  trend_window : ℤ
  rsi_window : ℤ := 14
  atr_window : ℤ := 14
  enable_rsi : Bool := true
  enable_atr : Bool := true
  rsi_buy : ℚ := 35
  rsi_sell : ℚ := 65
  atr_cap_pct : ℚ := 5
  threshold_abs : ℚ := 0
  trail_pct : Option ℚ := none
deriving DecidableEq

/-- The `"reason"` tags of the dicts `SwingWithTrend.update` emits. -/
inductive SwingReason where
  | below_band
  | above_band
  | trail_stop
deriving DecidableEq

/-- The dict `SwingWithTrend.update` emits:
`{"signal", "reason", "sma", "rsi", "atr_pct", "dev_pct"}`. -/
structure SwingOut where
  signal : Signal
  reason : SwingReason
  sma : ℚ
  rsi : Option ℚ
  atr_pct : Option ℚ
  dev_pct : ℚ
deriving DecidableEq

/-- `strategy.SwingWithTrend`: config, bounded trend-price deque, optional
RSI/ATR trackers, previous raw tick, and the trailing high-water mark. -/
structure SwingWithTrend where
  cfg : SwingConfig
  prices : List ℚ
  rsi : Option RSICalc
  atr : Option ATRLite
  prev_price : Option ℚ
  high_water : Option ℚ
deriving DecidableEq

namespace SwingWithTrend

/-- `SwingWithTrend.__init__`: raises unless `trend_window > 1`; builds the
RSI/ATR trackers only when the corresponding gate is enabled (their own
constructors raise on `window <= 0`). -/
def mk0 (cfg : SwingConfig) : Except String SwingWithTrend :=
  if cfg.trend_window ≤ 1 then .error "trend_window must be > 1"
  else
    match (if cfg.enable_rsi then (RSICalc.mk0 cfg.rsi_window).map some
           else .ok none),
          (if cfg.enable_atr then (ATRLite.mk0 cfg.atr_window).map some
           else .ok none) with
    | .ok r, .ok a => .ok ⟨cfg, [], r, a, none, none⟩
    | .error e, _ => .error e
    | .ok _, .error e => .error e

/-- `SwingWithTrend._trend_sma`: `None` until the deque is full, else its
mean. -/
def trendSma (st : SwingWithTrend) : Option ℚ :=
  if st.prices.length < st.cfg.trend_window.toNat then none
  else some (listMean st.prices)

/-- The warm-up exit of `update` (sma not ready or nonpositive): the RSI and
ATR trackers are still fed, and no signal is returned. -/
def warm (st1 : SwingWithTrend) (price : ℚ) :
    Option SwingOut × SwingWithTrend :=
  (none, { st1 with rsi := st1.rsi.map (fun r => (r.update price).2),
                    atr := st1.atr.map (fun a => (a.update price).2) })

/-- `SwingWithTrend.update`, step for step with the source: absolute tick
filter (which returns before any state change), window push, warm-up,
deviation, RSI/ATR update, ATR volatility gate, optional trailing stop,
band logic with RSI veto, and sell-over-buy tie-break. -/
def update (st : SwingWithTrend) (price : ℚ) :
    Option SwingOut × SwingWithTrend :=
  let skip : Bool :=
    match st.prev_price with
    | some pv => decide (0 < st.cfg.threshold_abs) &&
        decide (abs (price - pv) < st.cfg.threshold_abs)
    | none => false
  if skip then (none, st)
  else
    let st1 := { st with
      prev_price := some price,
      prices := dequePush st.cfg.trend_window.toNat st.prices price }
    match st1.trendSma with
    | none => warm st1 price
    | some sma =>
        if sma ≤ 0 then warm st1 price
        else
          let dev_pct := (price / sma - 1) * 100
          let rsiStep :=
            match st1.rsi with
            | some r => ((r.update price).1, some (r.update price).2)
            | none => (none, none)
          let atrStep :=
            match st1.atr with
            | some a => ((a.update price).1, some (a.update price).2)
            | none => (none, none)
          let rsi_val := rsiStep.1
          let st2 := { st1 with rsi := rsiStep.2, atr := atrStep.2 }
          let atr_pct : Option ℚ :=
            match atrStep.1 with
            | some av => if 0 < price then some (av / price * 100) else none
            | none => none
          let atrBlock : Bool :=
            st2.cfg.enable_atr &&
              (match atr_pct with
               | none => true
               | some ap => decide (st2.cfg.atr_cap_pct < ap))
          if atrBlock then (none, st2)
          else
            let bandOut : SwingWithTrend → Option SwingOut × SwingWithTrend :=
              fun stb =>
                let want_buy0 : Bool := decide (dev_pct ≤ -stb.cfg.buy_pct)
                let want_sell0 : Bool := decide (stb.cfg.sell_pct ≤ dev_pct)
                let wants :=
                  if stb.cfg.enable_rsi then
                    match rsi_val with
                    | some rv =>
                        (want_buy0 && decide (rv ≤ stb.cfg.rsi_buy),
                         want_sell0 && decide (stb.cfg.rsi_sell ≤ rv))
                    | none => (want_buy0, want_sell0)
                  else (want_buy0, want_sell0)
                if wants.2 then
                  (some ⟨.sell, .above_band, sma, rsi_val, atr_pct, dev_pct⟩, stb)
                else if wants.1 then
                  (some ⟨.buy, .below_band, sma, rsi_val, atr_pct, dev_pct⟩, stb)
                else (none, stb)
            match st2.cfg.trail_pct with
            | some tp =>
                let hw :=
                  match st2.high_water with
                  | none => some price
                  | some h => if h < price then some price else some h
                let st3 := { st2 with high_water := hw }
                let fire : Bool :=
                  match hw with
                  | some h => decide (h ≠ 0) &&
                      decide (price ≤ h * (1 - tp / 100))
                  | none => false
                if fire then
                  (some ⟨.sell, .trail_stop, sma, rsi_val, atr_pct, dev_pct⟩, st3)
                else bandOut st3
            | none => bandOut st2

/-- Feed a list of prices tick by tick, collecting the per-tick outputs. -/
def runAcc (st : SwingWithTrend) : List ℚ → List (Option SwingOut)
  | [] => []
  | p :: rest =>
      let r := st.update p
      r.1 :: r.2.runAcc rest

end SwingWithTrend

/-- C9, amended.  Construction of the trend-filtered swing strategy fails
exactly when `trend_window ≤ 1`, or an ENABLED RSI gate has
`rsi_window ≤ 0`, or an ENABLED ATR gate has `atr_window ≤ 0`.  (The claim's
bound is amended: the RSI/ATR constructors reject only `window <= 0`, so
`rsi_window = 1` and `atr_window = 1` are accepted, contrary to the claimed
`≤ 1` construction-time failure.) -/
theorem C9_swing_invalid_config_amended (cfg : SwingConfig) :
    (∃ st, SwingWithTrend.mk0 cfg = .ok st) ↔
      1 < cfg.trend_window ∧ (cfg.enable_rsi = true → 0 < cfg.rsi_window) ∧
        (cfg.enable_atr = true → 0 < cfg.atr_window) := by
  unfold SwingWithTrend.mk0 RSICalc.mk0 ATRLite.mk0
  by_cases h1 : cfg.trend_window ≤ 1
  · rw [if_pos h1]
    constructor
    · rintro ⟨st, hst⟩
      exact absurd hst (by simp)
    · rintro ⟨h, -⟩
      omega
  · rw [if_neg h1]
    have h1' : 1 < cfg.trend_window := by omega
    cases hr : cfg.enable_rsi <;> cases ha : cfg.enable_atr <;>
      by_cases hR : cfg.rsi_window ≤ 0 <;> by_cases hA : cfg.atr_window ≤ 0 <;>
      simp [hR, hA, h1', Except.map] <;> omega

/-- The configuration of the C9 counterexample: `trend_window = 10`,
`rsi_window = 1`, both gates enabled, otherwise the source defaults. -/
def cfgRsiOne : SwingConfig :=
  { buy_pct := 1, sell_pct := 3, trend_window := 10, rsi_window := 1 }

/-- C9, counterexample.  The configuration with `trend_window = 10`,
`rsi_window = 1` and the RSI gate enabled is accepted by the constructor
(it builds an `RSICalc` with window 1), although the claim says any
`rsi_window ≤ 1` with the gate enabled must fail construction. -/
theorem C9_swing_invalid_config_counterexample :
    SwingWithTrend.mk0 cfgRsiOne =
        .ok ⟨cfgRsiOne, [], some ⟨1, none, [], []⟩, some ⟨14, none, []⟩,
          none, none⟩ ∧
      cfgRsiOne.rsi_window ≤ 1 := by
  constructor
  · norm_num [SwingWithTrend.mk0, RSICalc.mk0, ATRLite.mk0, Except.map,
      cfgRsiOne]
  · norm_num [cfgRsiOne]


/-- Closed form of the trend-filtered swing strategy's per-tick signal when
the RSI and ATR gates are disabled, no trailing stop and no absolute tick
filter are configured: nothing while the trend window is filling or the SMA
is nonpositive, `sell` at-or-above the `sell_pct` band, `buy` at-or-below
the `buy_pct` band (sell priority), nothing inside the band. -/
def swingOutAt (W : ℕ) (bp sp : ℚ) (ps : List ℚ) (n : ℕ) : Option Signal :=
  if n + 1 < W then none
  else if listMean (lastN W (ps.take (n + 1))) ≤ 0 then none
  else if sp ≤ (ps[n]?.getD 0 / listMean (lastN W (ps.take (n + 1))) - 1) * 100
  then some .sell
  else if (ps[n]?.getD 0 / listMean (lastN W (ps.take (n + 1))) - 1) * 100 ≤ -bp
  then some .buy
  else none

/-- The state invariant for a gates-disabled `SwingWithTrend` run: the
config never changes, the trackers stay absent, and the trend deque holds
the last `W` prices. -/
def SwingInv (cfg : SwingConfig) (W : ℕ) (pre : List ℚ)
    (st : SwingWithTrend) : Prop :=
  st.cfg = cfg ∧ st.rsi = none ∧ st.atr = none ∧ st.prices = lastN W pre

theorem swing_update_step (cfg : SwingConfig) (W : ℕ) (pre : List ℚ)
    (st : SwingWithTrend)
    (hW : cfg.trend_window.toNat = W) (hW0 : 0 < W)
    (hatr : cfg.enable_atr = false) (htrail : cfg.trail_pct = none)
    (hthr : cfg.threshold_abs = 0)
    (hinv : SwingInv cfg W pre st) (p : ℚ) :
    (st.update p).1.map SwingOut.signal
        = swingOutAt W cfg.buy_pct cfg.sell_pct (pre ++ [p]) pre.length ∧
      SwingInv cfg W (pre ++ [p]) (st.update p).2 := by
  obtain ⟨hcfg, hrsi, hatrS, hpr⟩ := hinv
  have hpush : dequePush W (lastN W pre) p = lastN W (pre ++ [p]) :=
    dequePush_lastN W hW0 pre p
  have hlen : (lastN W (pre ++ [p])).length = min (pre.length + 1) W := by
    rw [lastN_length]; simp
  have hlenApp : (pre ++ [p]).length = pre.length + 1 := by simp
  have htake : (pre ++ [p]).take (pre.length + 1) = pre ++ [p] := by
    rw [← hlenApp, List.take_length]
  have hget : (pre ++ [p])[pre.length]? = some p :=
    List.getElem?_concat_length pre p
  have hskip :
      (match st.prev_price with
       | some pv => decide (0 < cfg.threshold_abs) &&
           decide (abs (p - pv) < cfg.threshold_abs)
       | none => false) = false := by
    cases st.prev_price <;> simp [hthr]
  by_cases hfill : pre.length + 1 < W
  · have hcond : (lastN W (pre ++ [p])).length < W := by
      rw [hlen]; omega
    refine ⟨?_, ?_, ?_, ?_, ?_⟩ <;>
      simp [SwingWithTrend.update, hcfg, hskip, SwingWithTrend.trendSma,
        hW, hpr, hpush, if_pos hcond, SwingWithTrend.warm, hrsi, hatrS,
        swingOutAt, if_pos hfill]
  · have hcond : ¬ (lastN W (pre ++ [p])).length < W := by
      rw [hlen]; omega
    by_cases hsma : listMean (lastN W (pre ++ [p])) ≤ 0
    · refine ⟨?_, ?_, ?_, ?_, ?_⟩ <;>
        simp [SwingWithTrend.update, hcfg, hskip, SwingWithTrend.trendSma,
          hW, hpr, hpush, if_neg hcond, if_pos hsma, SwingWithTrend.warm,
          hrsi, hatrS, swingOutAt, if_neg hfill, htake]
    · have hmain : st.update p =
          (if cfg.sell_pct ≤ (p / listMean (lastN W (pre ++ [p])) - 1) * 100
           then some ⟨.sell, .above_band, listMean (lastN W (pre ++ [p])),
             none, none, (p / listMean (lastN W (pre ++ [p])) - 1) * 100⟩
           else if (p / listMean (lastN W (pre ++ [p])) - 1) * 100 ≤
               -cfg.buy_pct
           then some ⟨.buy, .below_band, listMean (lastN W (pre ++ [p])),
             none, none, (p / listMean (lastN W (pre ++ [p])) - 1) * 100⟩
           else none,
           { st with
               prev_price := some p,
               prices := lastN W (pre ++ [p]),
               rsi := none,
               atr := none }) := by
        simp only [SwingWithTrend.update, hcfg, hskip, Bool.false_eq_true,
          if_false, SwingWithTrend.trendSma, hW, hpr, hpush, if_neg hcond,
          if_neg hsma, hrsi, hatrS, hatr, htrail, Bool.false_and]
        cases hrsiflag : cfg.enable_rsi <;>
          by_cases hsell :
            cfg.sell_pct ≤ (p / listMean (lastN W (pre ++ [p])) - 1) * 100 <;>
          by_cases hbuy :
            (p / listMean (lastN W (pre ++ [p])) - 1) * 100 ≤ -cfg.buy_pct <;>
          simp [hsell, hbuy]
      rw [hmain]
      constructor
      · by_cases hsell :
          cfg.sell_pct ≤ (p / listMean (lastN W (pre ++ [p])) - 1) * 100 <;>
        by_cases hbuy :
          (p / listMean (lastN W (pre ++ [p])) - 1) * 100 ≤ -cfg.buy_pct <;>
          simp [swingOutAt, if_neg hfill, htake, if_neg hsma, hget,
            hsell, hbuy]
      · refine ⟨?_, ?_, ?_, ?_⟩ <;>
          by_cases hsell :
            cfg.sell_pct ≤ (p / listMean (lastN W (pre ++ [p])) - 1) * 100 <;>
          by_cases hbuy :
            (p / listMean (lastN W (pre ++ [p])) - 1) * 100 ≤ -cfg.buy_pct <;>
          simp [hcfg, hsell, hbuy]

theorem swingOutAt_congr {W : ℕ} {bp sp : ℚ} {n : ℕ} (pre rest : List ℚ)
    (h : n + 1 ≤ pre.length) :
    swingOutAt W bp sp (pre ++ rest) n = swingOutAt W bp sp pre n := by
  unfold swingOutAt
  rw [List.take_append_of_le_length h, List.getElem?_append_left (by omega)]

theorem swing_runAcc_char (cfg : SwingConfig) (W : ℕ)
    (hW : cfg.trend_window.toNat = W) (hW0 : 0 < W)
    (hatr : cfg.enable_atr = false) (htrail : cfg.trail_pct = none)
    (hthr : cfg.threshold_abs = 0) :
    ∀ (rest pre : List ℚ) (st : SwingWithTrend), SwingInv cfg W pre st →
      (st.runAcc rest).map (Option.map SwingOut.signal) =
        (List.range rest.length).map
          (fun k => swingOutAt W cfg.buy_pct cfg.sell_pct (pre ++ rest)
            (pre.length + k))
  | [], _, st, _ => by simp [SwingWithTrend.runAcc]
  | p :: rest, pre, st, hinv => by
      have hstep := swing_update_step cfg W pre st hW hW0 hatr htrail hthr hinv p
      have hrec :=
        swing_runAcc_char cfg W hW hW0 hatr htrail hthr rest (pre ++ [p])
          (st.update p).2 hstep.2
      have hassoc : (pre ++ [p]) ++ rest = pre ++ p :: rest := by simp
      have hhead :
          (st.update p).1.map SwingOut.signal
            = swingOutAt W cfg.buy_pct cfg.sell_pct (pre ++ p :: rest)
                pre.length := by
        rw [hstep.1, ← hassoc, swingOutAt_congr (pre ++ [p]) rest (by simp)]
      simp only [SwingWithTrend.runAcc, List.map_cons, hhead, hrec, hassoc,
        List.length_cons, List.range_succ_eq_map, List.map_map]
      congr 1
      apply List.map_congr_left
      intro k _
      simp only [Function.comp_apply, List.length_append, List.length_singleton]
      congr 1
      omega

/-- The C4 scenario configuration: `buy_pct = 1`, `sell_pct = 3`,
`trend_window = 10`, RSI and ATR gates disabled, no trailing stop, no
absolute tick filter. -/
def cfgSwingTest : SwingConfig :=
  { buy_pct := 1, sell_pct := 3, trend_window := 10,
    enable_rsi := false, enable_atr := false }

/-- The freshly constructed strategy state for `cfgSwingTest`. -/
def swingTest0 : SwingWithTrend := ⟨cfgSwingTest, [], none, none, none, none⟩

theorem swingTest0_mk : SwingWithTrend.mk0 cfgSwingTest = .ok swingTest0 := by
  norm_num [SwingWithTrend.mk0, cfgSwingTest, swingTest0]

/-- C4, amended.  For the claim's configuration (`buy_pct = 1`,
`sell_pct = 3`, `trend_window = 10`, RSI/ATR disabled, no trailing stop, no
tick filter), the signal at every tick is the closed band rule
`swingOutAt`: nothing while the 10-tick window fills or the SMA is
nonpositive; once ready, `sell` whenever the deviation from the window SMA
is `≥ 3%`, `buy` whenever it is `≤ −1%` (sell wins if both), nothing inside
the band.  In particular a buy fires on EVERY ready tick at least 1% below
the SMA, so consecutive below-band ticks give consecutive buys: on a
rising-falling-rising series the strategy emits at least one buy and then a
sell, but not exactly one of each. -/
theorem C4_swing_band_characterization (st0 : SwingWithTrend)
    (hmk : SwingWithTrend.mk0 cfgSwingTest = .ok st0) (ps : List ℚ) (n : ℕ)
    (hn : n < ps.length) :
    ((st0.runAcc ps).map (Option.map SwingOut.signal))[n]? =
        some (swingOutAt 10 1 3 ps n) ∧
      (n + 1 < 10 → swingOutAt 10 1 3 ps n = none) ∧
      (¬ n + 1 < 10 → 0 < listMean (lastN 10 (ps.take (n + 1))) →
        ((swingOutAt 10 1 3 ps n = some .sell ↔
          3 ≤ (ps[n]?.getD 0 / listMean (lastN 10 (ps.take (n + 1))) - 1)
            * 100) ∧
        (swingOutAt 10 1 3 ps n = some .buy ↔
          (ps[n]?.getD 0 / listMean (lastN 10 (ps.take (n + 1))) - 1) * 100
              ≤ -1 ∧
            (ps[n]?.getD 0 / listMean (lastN 10 (ps.take (n + 1))) - 1) * 100
              < 3))) := by
  have hst0 : st0 = swingTest0 := by
    rw [swingTest0_mk] at hmk
    injection hmk with h
    exact h.symm
  subst hst0
  refine ⟨?_, ?_, ?_⟩
  · have hchar := swing_runAcc_char cfgSwingTest 10 (by decide)
      (by norm_num) (by decide) (by decide)
      (by norm_num [cfgSwingTest]) ps [] swingTest0
      ⟨rfl, rfl, rfl, by simp [lastN, swingTest0]⟩
    rw [hchar, List.getElem?_map, List.getElem?_range hn]
    simp [cfgSwingTest]
  · intro hwarm
    unfold swingOutAt
    rw [if_pos hwarm]
  · intro hready hpos
    constructor
    · unfold swingOutAt
      rw [if_neg hready, if_neg (by linarith)]
      by_cases hsell :
          (3 : ℚ) ≤ (ps[n]?.getD 0 / listMean (lastN 10 (ps.take (n + 1))) - 1)
            * 100 <;>
        by_cases hbuy :
          (ps[n]?.getD 0 / listMean (lastN 10 (ps.take (n + 1))) - 1) * 100
            ≤ (-1 : ℚ) <;>
        simp [hsell, hbuy]
    · unfold swingOutAt
      rw [if_neg hready, if_neg (by linarith)]
      by_cases hsell :
          (3 : ℚ) ≤ (ps[n]?.getD 0 / listMean (lastN 10 (ps.take (n + 1))) - 1)
            * 100 <;>
        by_cases hbuy :
          (ps[n]?.getD 0 / listMean (lastN 10 (ps.take (n + 1))) - 1) * 100
            ≤ (-1 : ℚ) <;>
        (simp [hsell, hbuy]; try linarith)

/-- The C4 counterexample price series: strictly rising for 10 ticks
(`100 … 100.9`), then strictly falling (`99, 98`), then strictly rising
(`99.5, 101, 103, 105`). -/
def psSwingTest : List ℚ :=
  [100, 1001/10, 1002/10, 1003/10, 1004/10, 1005/10, 1006/10, 1007/10,
   1008/10, 1009/10, 99, 98, 199/2, 101, 103, 105]

/-- C4, counterexample.  `psSwingTest` is monotonically
rising-then-falling-then-rising (first three `Chain'` conjuncts), dips more
than 1% below the trend SMA at tick 10 and later rises more than 3% above
it at tick 15 (the two arithmetic conjuncts) — yet the run emits TWO buy
signals, on two consecutive ticks, before the sell: not "exactly one buy
then exactly one sell", and two buys back to back. -/
theorem C4_swing_counterexample :
    SwingWithTrend.mk0 cfgSwingTest = .ok swingTest0 ∧
      List.Chain' (· < ·) (psSwingTest.take 10) ∧
      List.Chain' (· > ·) ((psSwingTest.drop 9).take 3) ∧
      List.Chain' (· < ·) (psSwingTest.drop 11) ∧
      ((99 : ℚ) / listMean (lastN 10 (psSwingTest.take 11)) - 1) * 100 < -1 ∧
      (3 : ℚ) < ((105 : ℚ) / listMean (lastN 10 (psSwingTest.take 16)) - 1)
        * 100 ∧
      (swingTest0.runAcc psSwingTest).map (Option.map SwingOut.signal) =
        [none, none, none, none, none, none, none, none, none, none,
         some .buy, some .buy, none, none, none, some .sell] := by
  have hchar := swing_runAcc_char cfgSwingTest 10 (by decide)
    (by norm_num) (by decide) (by decide)
    (by norm_num [cfgSwingTest]) psSwingTest [] swingTest0
    ⟨rfl, rfl, rfl, by simp [lastN, swingTest0]⟩
  refine ⟨swingTest0_mk, ?_, ?_, ?_, ?_, ?_, ?_⟩
  · norm_num [psSwingTest]
  · norm_num [psSwingTest]
  · norm_num [psSwingTest]
  · norm_num [psSwingTest, lastN, listMean]
  · norm_num [psSwingTest, lastN, listMean]
  · rw [hchar]
    norm_num [cfgSwingTest, psSwingTest, swingOutAt, lastN, listMean,
      List.range_succ]

theorem C4_swing_band_characterization_witness :
    ((swingTest0.runAcc psSwingTest).map (Option.map SwingOut.signal))[10]? =
      some (swingOutAt 10 1 3 psSwingTest 10) :=
  (C4_swing_band_characterization swingTest0 swingTest0_mk psSwingTest 10
    (by norm_num [psSwingTest])).1

/-- `paper_account.Position`. -/
structure Position where
  qty : ℚ := 0
  avg_cost : ℚ := 0
deriving DecidableEq

/-- Order side (`"buy"` / `"sell"` strings in the source). -/
inductive Side where
  | buy
  | sell
deriving DecidableEq

/-- `paper_account.Fill`, the record appended to `history` (and persisted);
`_record` rounds the fields exactly as stored here. -/
structure Fill where
  ts : ℚ
  symbol : String
  side : Side
  qty : ℚ
  price : ℚ
  fee : ℚ
  notional : ℚ
  realized_pnl : ℚ := 0
  cash_after : ℚ := 0
deriving DecidableEq

/-- `paper_account.PaperAccount`.  The `positions` dict is modelled as a
total function defaulting to the zero `Position` — this matches both
`positions.get(symbol, Position())` and `positions.setdefault(symbol,
Position())`, whose inserted default is indistinguishable from the
absent key. -/
structure PaperAccount where
  usd : ℚ
  fee_bps : ℤ
  positions : String → Position
  history : List Fill
  realized_pnl_total : ℚ
  wins : ℕ
  losses : ℕ

namespace PaperAccount

/-- `PaperAccount.__init__`. -/
def init (starting_usd : ℚ) (fee_bps : ℤ) : PaperAccount :=
  ⟨starting_usd, fee_bps, fun _ => {}, [], 0, 0, 0⟩

/-- `PaperAccount._fee`: `round(notional * fee_bps / 10_000, 8)`. -/
def fee (a : PaperAccount) (notional : ℚ) : ℚ :=
  pyRound (notional * (a.fee_bps : ℚ) / 10000) 8

/-- `PaperAccount._record`: append the rounded fill snapshot to `history`
(qty/price to 12 decimals, fee/notional/realized to 3, cash to 2); `ts` is
the caller-supplied wall-clock `time.time()`. -/
def record (a : PaperAccount) (symbol : String) (side : Side)
    (qty price fee notional realized now : ℚ) : PaperAccount :=
  { a with history := a.history ++
      [⟨now, symbol, side, pyRound qty 12, pyRound price 12, pyRound fee 3,
        pyRound notional 3, pyRound realized 3, pyRound a.usd 2⟩] }

/-- `PaperAccount.buy`: reject nonpositive qty/price; reject when
`notional + fee > usd + 1e-12`; otherwise debit cash, blend the weighted
average cost (fee included via `total_cost`), and record the fill. -/
def buy (a : PaperAccount) (symbol : String) (qty price now : ℚ) :
    Bool × PaperAccount :=
  if qty ≤ 0 ∨ price ≤ 0 then (false, a)
  else
    let notional := qty * price
    let fee := a.fee notional
    let total_cost := notional + fee
    if a.usd + 1 / 10 ^ 12 < total_cost then (false, a)
    else
      let a1 := { a with usd := a.usd - total_cost }
      let p := a1.positions symbol
      let new_qty := p.qty + qty
      let p1 : Position :=
        if new_qty ≤ 0 then ⟨0, 0⟩
        else ⟨new_qty, (p.qty * p.avg_cost + total_cost) / new_qty⟩
      let a2 := { a1 with
        positions := fun s => if s = symbol then p1 else a1.positions s }
      (true, a2.record symbol .buy qty price fee notional 0 now)

/-- `PaperAccount.sell`: reject nonpositive qty/price; clamp the quantity
to the held quantity and reject when the clamp is nonpositive; otherwise
realize P&L, count the win/loss, credit the proceeds, decrement the
position (resetting to `{0, 0}` at-or-below the `1e-12` dust epsilon), and
record the fill. -/
def sell (a : PaperAccount) (symbol : String) (qty price now : ℚ) :
    Bool × PaperAccount :=
  if qty ≤ 0 ∨ price ≤ 0 then (false, a)
  else
    let p := a.positions symbol
    let qty1 := min qty p.qty
    if qty1 ≤ 0 then (false, a)
    else
      let notional := qty1 * price
      let fee := a.fee notional
      let proceeds := notional - fee
      let realized := (price - p.avg_cost) * qty1 - fee
      let a1 := { a with
        realized_pnl_total := a.realized_pnl_total + realized,
        wins := if 0 ≤ realized then a.wins + 1 else a.wins,
        losses := if 0 ≤ realized then a.losses else a.losses + 1,
        usd := a.usd + proceeds }
      let qafter := p.qty - qty1
      let p1 : Position :=
        if qafter ≤ 1 / 10 ^ 12 then ⟨0, 0⟩ else ⟨qafter, p.avg_cost⟩
      let a2 := { a1 with
        positions := fun s => if s = symbol then p1 else a1.positions s }
      (true, a2.record symbol .sell qty1 price fee notional realized now)

end PaperAccount

/-- A ledger call: one `buy` or `sell` invocation with its arguments and
timestamp. -/
inductive Cmd where
  | buy (symbol : String) (qty price now : ℚ)
  | sell (symbol : String) (qty price now : ℚ)

/-- Execute one ledger call, keeping the (possibly unchanged) account. -/
def PaperAccount.exec (a : PaperAccount) : Cmd → PaperAccount
  | .buy s q p t => (a.buy s q p t).2
  | .sell s q p t => (a.sell s q p t).2

/-- Execute a list of ledger calls in order. -/
def PaperAccount.execList (a : PaperAccount) : List Cmd → PaperAccount
  | [] => a
  | c :: cs => (a.exec c).execList cs

/-- The ledger invariant of the claim: a flat position has no cost basis. -/
def PosInv (a : PaperAccount) : Prop :=
  ∀ sym, (a.positions sym).qty = 0 → (a.positions sym).avg_cost = 0

theorem posInv_set (a : PaperAccount) (hinv : PosInv a) (sym : String)
    (p1 : Position) (hp1 : p1.qty = 0 → p1.avg_cost = 0)
    (usd2 rpl2 : ℚ) (w2 l2 : ℕ) (hist2 : List Fill) :
    PosInv ⟨usd2, a.fee_bps, fun s => if s = sym then p1 else a.positions s,
      hist2, rpl2, w2, l2⟩ := by
  intro s
  by_cases hs : s = sym
  · simpa [hs] using hp1
  · simpa [hs] using hinv s

theorem posInv_buy (a : PaperAccount) (hinv : PosInv a) (sym : String)
    (qty price now : ℚ) : PosInv (a.buy sym qty price now).2 := by
  simp only [PaperAccount.buy]
  split_ifs with h1 h2 h3
  · exact hinv
  · exact hinv
  · exact posInv_set a hinv sym _ (fun _ => rfl) _ _ _ _ _
  · refine posInv_set a hinv sym _ (fun hq => absurd hq ?_) _ _ _ _ _
    push_neg at h3
    exact ne_of_gt h3

theorem posInv_sell (a : PaperAccount) (hinv : PosInv a) (sym : String)
    (qty price now : ℚ) : PosInv (a.sell sym qty price now).2 := by
  simp only [PaperAccount.sell]
  split_ifs with h1 h2 h3 h4 h5
  · exact hinv
  · exact hinv
  · exact posInv_set a hinv sym _ (fun _ => rfl) _ _ _ _ _
  · exact posInv_set a hinv sym _ (fun _ => rfl) _ _ _ _ _
  · refine posInv_set a hinv sym _ ?_ _ _ _ _ _
    intro hq
    simp only at hq
    exact absurd hq (by
      push_neg at h3
      have hdust : (0 : ℚ) < 1 / 10 ^ 12 := by norm_num
      exact ne_of_gt (by linarith))
  · refine posInv_set a hinv sym _ ?_ _ _ _ _ _
    intro hq
    simp only at hq
    exact absurd hq (by
      push_neg at h3
      have hdust : (0 : ℚ) < 1 / 10 ^ 12 := by norm_num
      exact ne_of_gt (by linarith))

theorem posInv_exec (a : PaperAccount) (hinv : PosInv a) (c : Cmd) :
    PosInv (a.exec c) := by
  cases c
  · exact posInv_buy a hinv _ _ _ _
  · exact posInv_sell a hinv _ _ _ _

/-- C1.  Starting from a fresh paper account, after any sequence of `buy`
and `sell` calls (hence after every single call, as the sequence ranges
over all prefixes) every symbol's position satisfies
`quantity = 0 → average_cost = 0`; the dust reset on sell re-establishes it
by zeroing both fields together. -/
theorem C1_position_invariant (c0 : ℚ) (bps : ℤ) (cmds : List Cmd) :
    PosInv ((PaperAccount.init c0 bps).execList cmds) := by
  have hgen : ∀ (cs : List Cmd) (a : PaperAccount), PosInv a →
      PosInv (a.execList cs) := by
    intro cs
    induction cs with
    | nil => intro a h; exact h
    | cons c cs ih =>
        intro a h
        exact ih (a.exec c) (posInv_exec a h c)
  exact hgen cmds (PaperAccount.init c0 bps)
    (fun sym _ => rfl)

theorem C1_position_invariant_witness :
    (((PaperAccount.init 10000 35).execList
        [Cmd.buy "BTC-USD" 1 2 0, Cmd.sell "BTC-USD" 1 2 1]).positions
      "BTC-USD").qty = 0 →
    (((PaperAccount.init 10000 35).execList
        [Cmd.buy "BTC-USD" 1 2 0, Cmd.sell "BTC-USD" 1 2 1]).positions
      "BTC-USD").avg_cost = 0 :=
  C1_position_invariant 10000 35
    [Cmd.buy "BTC-USD" 1 2 0, Cmd.sell "BTC-USD" 1 2 1] "BTC-USD"

/-- C7.  A `buy` with nonpositive quantity or price, or whose total cost
(notional + fee) exceeds the available cash beyond the `1e-12` epsilon,
returns `False` and leaves the account completely unchanged (cash,
positions, history, realized P&L and win/loss counts); the embedding is a
total function, mirroring that the source returns a boolean instead of
raising. -/
theorem C7_buy_failure_no_mutation (a : PaperAccount) (sym : String)
    (qty price now : ℚ)
    (h : qty ≤ 0 ∨ price ≤ 0 ∨
      a.usd + 1 / 10 ^ 12 < qty * price + a.fee (qty * price)) :
    (a.buy sym qty price now).1 = false ∧ (a.buy sym qty price now).2 = a := by
  simp only [PaperAccount.buy]
  rcases h with h | h | h
  · rw [if_pos (Or.inl h)]
    exact ⟨rfl, rfl⟩
  · rw [if_pos (Or.inr h)]
    exact ⟨rfl, rfl⟩
  · by_cases h1 : qty ≤ 0 ∨ price ≤ 0
    · rw [if_pos h1]
      exact ⟨rfl, rfl⟩
    · rw [if_neg h1, if_pos h]
      exact ⟨rfl, rfl⟩

theorem C7_buy_failure_no_mutation_witness :
    ((PaperAccount.init 1 35).buy "BTC-USD" 1 1000 0).1 = false ∧
      ((PaperAccount.init 1 35).buy "BTC-USD" 1 1000 0).2 =
        PaperAccount.init 1 35 :=
  C7_buy_failure_no_mutation (PaperAccount.init 1 35) "BTC-USD" 1 1000 0
    (Or.inr (Or.inr (by
      norm_num [PaperAccount.init, PaperAccount.fee, pyRound,
        pyRoundHalfEven])))

/-- C6.  `sell` executes exactly the quantity clamped to the held quantity:
on success the held quantity becomes `held − min(requested, held)` (reset to
`0` at-or-below the `1e-12` dust epsilon); the call fails whenever the
clamped quantity is nonpositive; and a nonnegative held quantity can never
become negative, whatever quantity is requested. -/
theorem C6_sell_clamps_and_never_negative (a : PaperAccount) (sym : String)
    (qty price now : ℚ) :
    ((a.sell sym qty price now).1 = true →
        ((a.sell sym qty price now).2.positions sym).qty =
          (if (a.positions sym).qty - min qty (a.positions sym).qty
              ≤ 1 / 10 ^ 12
           then 0
           else (a.positions sym).qty - min qty (a.positions sym).qty)) ∧
      (min qty (a.positions sym).qty ≤ 0 →
        (a.sell sym qty price now).1 = false) ∧
      (0 ≤ (a.positions sym).qty →
        0 ≤ ((a.sell sym qty price now).2.positions sym).qty) := by
  refine ⟨?_, ?_, ?_⟩
  · intro hsucc
    simp only [PaperAccount.sell] at hsucc ⊢
    by_cases h1 : qty ≤ 0 ∨ price ≤ 0
    · rw [if_pos h1] at hsucc
      exact absurd hsucc (by simp)
    · rw [if_neg h1] at hsucc ⊢
      by_cases h2 : min qty (a.positions sym).qty ≤ 0
      · rw [if_pos h2] at hsucc
        exact absurd hsucc (by simp)
      · rw [if_neg h2]
        simp [PaperAccount.record]
        split_ifs <;> simp
  · intro hmin
    simp only [PaperAccount.sell]
    by_cases h1 : qty ≤ 0 ∨ price ≤ 0
    · rw [if_pos h1]
    · rw [if_neg h1, if_pos hmin]
  · intro hq0
    simp only [PaperAccount.sell]
    by_cases h1 : qty ≤ 0 ∨ price ≤ 0
    · rw [if_pos h1]
      exact hq0
    · rw [if_neg h1]
      by_cases h2 : min qty (a.positions sym).qty ≤ 0
      · rw [if_pos h2]
        exact hq0
      · rw [if_neg h2]
        simp [PaperAccount.record]
        split_ifs with hc
        · simp
        · push_neg at hc
          have hdust : (0 : ℚ) ≤ (10 ^ 12 : ℚ)⁻¹ := by norm_num
          simp only
          linarith

/-- A small concrete account holding 2 units of `"BTC-USD"` at average
cost 1, used as witness input. -/
def accWitness : PaperAccount :=
  ⟨100, 35, fun s => if s = "BTC-USD" then ⟨2, 1⟩ else ⟨0, 0⟩, [], 0, 0, 0⟩

theorem C6_sell_clamps_and_never_negative_witness :
    ((accWitness.sell "BTC-USD" 5 1 0).1 = true →
        ((accWitness.sell "BTC-USD" 5 1 0).2.positions "BTC-USD").qty =
          (if (accWitness.positions "BTC-USD").qty -
              min 5 (accWitness.positions "BTC-USD").qty ≤ 1 / 10 ^ 12
           then 0
           else (accWitness.positions "BTC-USD").qty -
              min 5 (accWitness.positions "BTC-USD").qty)) ∧
      (min 5 (accWitness.positions "BTC-USD").qty ≤ 0 →
        (accWitness.sell "BTC-USD" 5 1 0).1 = false) ∧
      (0 ≤ (accWitness.positions "BTC-USD").qty →
        0 ≤ ((accWitness.sell "BTC-USD" 5 1 0).2.positions "BTC-USD").qty) :=
  C6_sell_clamps_and_never_negative accWitness "BTC-USD" 5 1 0

/-- Modelled from the spec: the repository has no replay routine (the spec
itself notes that the current resume logic "only resyncs cash, not a full
replay"), but requires that "every fill read back into a resumed session
must be able to reconstruct position state (quantity, cost basis) purely by
replaying the persisted fill log".  Replaying one persisted fill applies
its recorded side, quantity, price and fee through the same ledger rules as
`buy`/`sell`: a buy debits `qty·price + fee` and blends the average cost
with that total cost; a sell credits `qty·price − fee`, decrements the
quantity and applies the same `1e-12` dust reset. -/
def replayFill (cash : ℚ) (positions : String → Position) (f : Fill) :
    ℚ × (String → Position) :=
  match f.side with
  | .buy =>
      let total_cost := f.qty * f.price + f.fee
      let p := positions f.symbol
      let new_qty := p.qty + f.qty
      let p1 : Position :=
        if new_qty ≤ 0 then ⟨0, 0⟩
        else ⟨new_qty, (p.qty * p.avg_cost + total_cost) / new_qty⟩
      (cash - total_cost, fun s => if s = f.symbol then p1 else positions s)
  | .sell =>
      let proceeds := f.qty * f.price - f.fee
      let p := positions f.symbol
      let qafter := p.qty - f.qty
      let p1 : Position :=
        if qafter ≤ 1 / 10 ^ 12 then ⟨0, 0⟩ else ⟨qafter, p.avg_cost⟩
      (cash + proceeds, fun s => if s = f.symbol then p1 else positions s)

/-- Modelled from the spec: replay a persisted fill log in order from a
starting cash balance and (empty) position book. -/
def replayLog (cash : ℚ) (positions : String → Position) :
    List Fill → ℚ × (String → Position)
  | [] => (cash, positions)
  | f :: fs =>
      let r := replayFill cash positions f
      replayLog r.1 r.2 fs

theorem replayLog_append (c : ℚ) (pos : String → Position)
    (xs ys : List Fill) :
    replayLog c pos (xs ++ ys) =
      replayLog (replayLog c pos xs).1 (replayLog c pos xs).2 ys := by
  induction xs generalizing c pos with
  | nil => rfl
  | cons f fs ih =>
      simp only [replayLog, List.cons_append]
      exact ih _ _

/-- The recording of this call loses nothing to rounding: the executed
quantity and price fit in 12 decimals and the fee in 3 (`_record` stores
exactly these roundings). -/
def LosslessStep (a : PaperAccount) : Cmd → Prop
  | .buy _ qty price _ =>
      pyRound qty 12 = qty ∧ pyRound price 12 = price ∧
        pyRound (a.fee (qty * price)) 3 = a.fee (qty * price)
  | .sell sym qty price _ =>
      pyRound (min qty (a.positions sym).qty) 12
          = min qty (a.positions sym).qty ∧
        pyRound price 12 = price ∧
        pyRound (a.fee (min qty (a.positions sym).qty * price)) 3
          = a.fee (min qty (a.positions sym).qty * price)

/-- `LosslessStep` along a whole call sequence. -/
def LosslessRun (a : PaperAccount) : List Cmd → Prop
  | [] => True
  | c :: cs => LosslessStep a c ∧ LosslessRun (a.exec c) cs

theorem replay_exec_step (c0 : ℚ) (pos0 : String → Position)
    (a : PaperAccount) (c : Cmd)
    (h1 : (replayLog c0 pos0 a.history).1 = a.usd)
    (h2 : (replayLog c0 pos0 a.history).2 = a.positions)
    (hl : LosslessStep a c) :
    (replayLog c0 pos0 (a.exec c).history).1 = (a.exec c).usd ∧
      (replayLog c0 pos0 (a.exec c).history).2 = (a.exec c).positions := by
  cases c with
  | buy sym qty price now =>
      obtain ⟨hq, hp, hf⟩ := hl
      simp only [PaperAccount.exec, PaperAccount.buy]
      split_ifs with hv hc hz
      · exact ⟨h1, h2⟩
      · exact ⟨h1, h2⟩
      · simp only [PaperAccount.record, replayLog_append, h1, h2, replayLog,
          replayFill, hq, hp, hf, if_pos hz]
        exact ⟨by trivial, by trivial⟩
      · simp only [PaperAccount.record, replayLog_append, h1, h2, replayLog,
          replayFill, hq, hp, hf, if_neg hz]
        exact ⟨by trivial, by trivial⟩
  | sell sym qty price now =>
      obtain ⟨hq, hp, hf⟩ := hl
      simp only [PaperAccount.exec, PaperAccount.sell]
      split_ifs with hv hc hz hw hw
      · exact ⟨h1, h2⟩
      · exact ⟨h1, h2⟩
      all_goals
        simp only [PaperAccount.record, replayLog_append, h1, h2, replayLog,
          replayFill, hq, hp, hf]
      all_goals
        (try simp only [if_pos hz])
      all_goals
        (try simp only [if_neg hz])
      all_goals
        exact ⟨by trivial, by trivial⟩

/-- C5, amended.  Replaying the persisted fill log reproduces the live
final cash and every symbol's position state PROVIDED the recording lost
nothing to rounding — i.e. along the run, each executed quantity and price
is exact at 12 decimals and each fee at 3 (`_record` stores
`round(qty, 12)`, `round(price, 12)`, `round(fee, 3)`).  Without that
hypothesis the round trip fails (see the counterexample: a fee of $0.00035
is persisted as $0.0). -/
theorem C5_replay_roundtrip_amended (c0 : ℚ) (bps : ℤ) (cmds : List Cmd)
    (h : LosslessRun (PaperAccount.init c0 bps) cmds) :
    (replayLog c0 (fun _ => ⟨0, 0⟩)
        ((PaperAccount.init c0 bps).execList cmds).history).1
        = ((PaperAccount.init c0 bps).execList cmds).usd ∧
      (replayLog c0 (fun _ => ⟨0, 0⟩)
        ((PaperAccount.init c0 bps).execList cmds).history).2
        = ((PaperAccount.init c0 bps).execList cmds).positions := by
  have hgen : ∀ (cs : List Cmd) (a : PaperAccount),
      (replayLog c0 (fun _ => ⟨0, 0⟩) a.history).1 = a.usd →
      (replayLog c0 (fun _ => ⟨0, 0⟩) a.history).2 = a.positions →
      LosslessRun a cs →
      (replayLog c0 (fun _ => ⟨0, 0⟩) (a.execList cs).history).1
          = (a.execList cs).usd ∧
        (replayLog c0 (fun _ => ⟨0, 0⟩) (a.execList cs).history).2
          = (a.execList cs).positions := by
    intro cs
    induction cs with
    | nil =>
        intro a ha1 ha2 _
        exact ⟨ha1, ha2⟩
    | cons c cs ih =>
        intro a ha1 ha2 hrun
        obtain ⟨hstep, hrest⟩ := hrun
        have hr := replay_exec_step c0 _ a c ha1 ha2 hstep
        exact ih (a.exec c) hr.1 hr.2 hrest
  exact hgen cmds (PaperAccount.init c0 bps) rfl rfl h

theorem C5_replay_roundtrip_amended_witness :
    (replayLog 10000 (fun _ => ⟨0, 0⟩)
        ((PaperAccount.init 10000 35).execList
          [Cmd.buy "BTC-USD" 1 2 0]).history).1
      = ((PaperAccount.init 10000 35).execList
          [Cmd.buy "BTC-USD" 1 2 0]).usd :=
  (C5_replay_roundtrip_amended 10000 35 [Cmd.buy "BTC-USD" 1 2 0]
    (by norm_num [LosslessRun, LosslessStep, PaperAccount.fee,
      PaperAccount.init, pyRound, pyRoundHalfEven])).1

/-- C5, counterexample.  A single successful `buy` of 1 unit at $0.10 with
the default 35 bps fee: the exact fee is $0.00035, which `_record` persists
as `round(0.00035, 3) = 0.0`; replaying the log therefore yields a cash
balance of $9999.90, while the live account holds $9999.89965 — the round
trip does not reproduce the final cash. -/
theorem C5_replay_counterexample :
    ((PaperAccount.init 10000 35).buy "BTC-USD" 1 (1/10) 0).1 = true ∧
      (replayLog 10000 (fun _ => ⟨0, 0⟩)
          ((PaperAccount.init 10000 35).buy "BTC-USD" 1 (1/10) 0).2.history).1
        = 99999 / 10 ∧
      ((PaperAccount.init 10000 35).buy "BTC-USD" 1 (1/10) 0).2.usd
        = 999989965 / 100000 ∧
      (99999 / 10 : ℚ) ≠ 999989965 / 100000 := by
  refine ⟨?_, ?_, ?_, by norm_num⟩ <;>
    norm_num [PaperAccount.buy, PaperAccount.init, PaperAccount.fee,
      PaperAccount.record, replayLog, replayFill, pyRound, pyRoundHalfEven]

/-- The outcome tags of `Risk.allow`'s `reason` strings (`"ok"`,
`"invalid_notional"`, `"over_per_order_cap(…)"`, `"over_daily_cap(…)"`,
`"cooldown_active(…)"` — the formatted numbers are presentation only). -/
inductive RiskReason where
  | ok
  | invalid_notional
  | over_per_order_cap
  | over_daily_cap
  | cooldown_active
deriving DecidableEq

/-- `risk.Risk`: caps, cooldown length, trailing-stop percent, and the
runtime state (current UTC day, buy spend today, last buy wall-clock time,
cooldown deadline on the monotonic clock).  The calendar day is modelled as
an integer day number; monotonic and wall clocks are passed to each call. -/
structure Risk where
  max_per_order : ℚ
  max_daily : ℚ
  cooldown : ℤ
  trail_pct : ℚ
  day : Option ℤ
  spent : ℚ
  last_buy_ts : ℚ
  cooldown_deadline : Option ℚ
deriving DecidableEq

namespace Risk

/-- `Risk.__init__` (it ends with a `_roll_day_if_needed()`, so the stored
day starts as the construction-time date). -/
def init (max_per_order max_daily : ℚ) (cooldown : ℤ) (trail_pct : ℚ)
    (today : ℤ) : Risk :=
  ⟨max_per_order, max_daily, cooldown, trail_pct, some today, 0, 0, none⟩

/-- `Risk._roll_day_if_needed`: on a UTC-date change, store the new day and
reset the daily spend. -/
def rollDay (r : Risk) (today : ℤ) : Risk :=
  if r.day = some today then r else { r with day := some today, spent := 0 }

/-- `Risk.allow`: lazy day rollover, then reject nonpositive notional, then
the per-order cap; for buys only, then the daily cap
(`spent + n > max_daily`) and then the cooldown
(`deadline − monotonic() > 0`); sells skip both. -/
def allow (r : Risk) (notional : ℚ) (side : Side) (today : ℤ) (mono : ℚ) :
    (Bool × RiskReason) × Risk :=
  let r1 := r.rollDay today
  if notional ≤ 0 then ((false, .invalid_notional), r1)
  else if r1.max_per_order < notional then ((false, .over_per_order_cap), r1)
  else
    match side with
    | .buy =>
        if r1.max_daily < r1.spent + notional then
          ((false, .over_daily_cap), r1)
        else
          match r1.cooldown_deadline with
          | some d =>
              if 0 < d - mono then ((false, .cooldown_active), r1)
              else ((true, .ok), r1)
          | none => ((true, .ok), r1)
    | .sell => ((true, .ok), r1)

/-- `Risk.record`: lazy day rollover; a buy adds `max(0, n)` to the daily
spend, stamps the wall clock, and (for a positive cooldown) arms the
deadline at `monotonic() + cooldown`; a sell changes nothing. -/
def record (r : Risk) (notional : ℚ) (side : Side) (today : ℤ)
    (mono wall : ℚ) : Risk :=
  let r1 := r.rollDay today
  match side with
  | .buy =>
      let r2 := { r1 with spent := r1.spent + max 0 notional,
                          last_buy_ts := wall }
      if 0 < r2.cooldown then
        { r2 with cooldown_deadline := some (mono + (r2.cooldown : ℚ)) }
      else r2
  | .sell => r1

end Risk

/-- One approved-and-recorded buy of notional 5 at monotonic time `t` on
day 0, as in the spec's scenario. -/
def riskCycle (r : Risk) (t : ℚ) : Risk :=
  ((r.allow 5 .buy 0 t).2).record 5 .buy 0 t t

/-- The scenario guard: `max_per_order = 5`, `max_daily = 25`,
`cooldown = 60` (trail 0.8 as in the source default), built on day 0. -/
def riskDemo0 : Risk := Risk.init 5 25 60 (8/10) 0
def riskDemo1 : Risk := riskCycle riskDemo0 0
def riskDemo2 : Risk := riskCycle riskDemo1 100
def riskDemo3 : Risk := riskCycle riskDemo2 200
def riskDemo4 : Risk := riskCycle riskDemo3 300
def riskDemo5 : Risk := riskCycle riskDemo4 400

theorem rollDay_max_per_order (r : Risk) (today : ℤ) :
    (r.rollDay today).max_per_order = r.max_per_order := by
  unfold Risk.rollDay
  split_ifs <;> rfl

theorem rollDay_max_daily (r : Risk) (today : ℤ) :
    (r.rollDay today).max_daily = r.max_daily := by
  unfold Risk.rollDay
  split_ifs <;> rfl

theorem rollDay_cooldown (r : Risk) (today : ℤ) :
    (r.rollDay today).cooldown = r.cooldown := by
  unfold Risk.rollDay
  split_ifs <;> rfl

theorem rollDay_deadline (r : Risk) (today : ℤ) :
    (r.rollDay today).cooldown_deadline = r.cooldown_deadline := by
  unfold Risk.rollDay
  split_ifs <;> rfl

theorem rollDay_day (r : Risk) (today : ℤ) :
    (r.rollDay today).day = some today := by
  unfold Risk.rollDay
  split_ifs with h
  · exact h
  · rfl

theorem rollDay_self {r : Risk} {today : ℤ} (h : r.day = some today) :
    r.rollDay today = r := by
  unfold Risk.rollDay
  rw [if_pos h]

/-- C3.  The risk guard: a nonpositive notional is always rejected, as is a
notional above the per-order cap, for both sides; a sell is permitted
exactly when `0 < n ≤ max_per_order` — daily cap and cooldown are bypassed
entirely; a buy within the per-order cap is rejected with the daily-cap
reason when today's rolled-over spend plus the notional exceeds
`max_daily`, and with the cooldown reason when an armed cooldown deadline
has not yet elapsed on the monotonic clock.  The concrete scenario with
`max_per_order = 5, max_daily = 25, cooldown = 60`: five sequential
recorded buys of notional 5 on the same day (spaced beyond the cooldown)
are approved, the sixth is denied `over_daily_cap`, and any buy attempted
2 seconds after an approved-and-recorded buy (with cooldown 60, within the
caps) is denied `cooldown_active`. -/
theorem C3_risk_guard (r : Risk) (n : ℚ) (side : Side) (today : ℤ)
    (mono : ℚ) :
    (n ≤ 0 → (r.allow n side today mono).1.1 = false) ∧
      (r.max_per_order < n → (r.allow n side today mono).1.1 = false) ∧
      ((r.allow n .sell today mono).1.1 = true ↔
        0 < n ∧ n ≤ r.max_per_order) ∧
      (0 < n → n ≤ r.max_per_order →
        r.max_daily < (r.rollDay today).spent + n →
        (r.allow n .buy today mono).1 = (false, .over_daily_cap)) ∧
      (∀ d, 0 < n → n ≤ r.max_per_order →
        (r.rollDay today).spent + n ≤ r.max_daily →
        r.cooldown_deadline = some d → 0 < d - mono →
        (r.allow n .buy today mono).1 = (false, .cooldown_active)) ∧
      ((riskDemo0.allow 5 .buy 0 0).1 = (true, .ok) ∧
        (riskDemo1.allow 5 .buy 0 100).1 = (true, .ok) ∧
        (riskDemo2.allow 5 .buy 0 200).1 = (true, .ok) ∧
        (riskDemo3.allow 5 .buy 0 300).1 = (true, .ok) ∧
        (riskDemo4.allow 5 .buy 0 400).1 = (true, .ok) ∧
        (riskDemo5.allow 5 .buy 0 500).1 = (false, .over_daily_cap) ∧
        (riskDemo1.allow 5 .buy 0 2).1 = (false, .cooldown_active)) ∧
      (∀ (r2 : Risk) (nn m : ℚ) (td : ℤ) (t : ℚ), r2.cooldown = 60 →
        0 < m → m ≤ r2.max_per_order →
        ((r2.record nn .buy td t t).rollDay td).spent + m ≤ r2.max_daily →
        ((r2.record nn .buy td t t).allow m .buy td (t + 2)).1
          = (false, .cooldown_active)) := by
  refine ⟨?_, ?_, ?_, ?_, ?_, ?_, ?_⟩
  · intro h
    simp only [Risk.allow]
    rw [if_pos h]
  · intro h
    simp only [Risk.allow]
    by_cases h1 : n ≤ 0
    · rw [if_pos h1]
    · rw [if_neg h1, if_pos (by rw [rollDay_max_per_order]; exact h)]
  · simp only [Risk.allow]
    by_cases h1 : n ≤ 0
    · rw [if_pos h1]
      constructor
      · intro hfalse
        exact absurd hfalse (by simp)
      · rintro ⟨hn, -⟩
        linarith
    · by_cases h2 : r.max_per_order < n
      · rw [if_neg h1, if_pos (by rw [rollDay_max_per_order]; exact h2)]
        constructor
        · intro hfalse
          exact absurd hfalse (by simp)
        · rintro ⟨-, hle⟩
          exact absurd h2 (not_lt.mpr hle)
      · rw [if_neg h1, if_neg (by rw [rollDay_max_per_order]; exact h2)]
        constructor
        · intro _
          exact ⟨by linarith [not_le.mp h1], not_lt.mp h2⟩
        · intro _
          rfl
  · intro hn hcap hdaily
    simp only [Risk.allow]
    rw [if_neg (by linarith), if_neg (by rw [rollDay_max_per_order]; linarith),
      if_pos (by rw [rollDay_max_daily]; exact hdaily)]
  · intro d hn hcap hdaily hdl hrem
    simp only [Risk.allow]
    rw [if_neg (by linarith), if_neg (by rw [rollDay_max_per_order]; linarith),
      if_neg (by rw [rollDay_max_daily]; push_neg; exact hdaily)]
    rw [show (r.rollDay today).cooldown_deadline = some d from
      (rollDay_deadline r today).trans hdl]
    simp [hrem]
  · refine ⟨?_, ?_, ?_, ?_, ?_, ?_, ?_⟩ <;>
      norm_num [riskDemo5, riskDemo4, riskDemo3, riskDemo2, riskDemo1,
        riskDemo0, riskCycle, Risk.init, Risk.allow, Risk.record,
        Risk.rollDay]
  · intro r2 nn m td t hc hm hcap hdaily
    have hday : (r2.record nn .buy td t t).day = some td := by
      simp only [Risk.record]
      split_ifs <;> exact rollDay_day r2 td
    have hdl : (r2.record nn .buy td t t).cooldown_deadline
        = some (t + 60) := by
      simp only [Risk.record]
      rw [if_pos (by rw [rollDay_cooldown, hc]; norm_num)]
      rw [rollDay_cooldown, hc]
      norm_num
    have hcap2 : (r2.record nn .buy td t t).max_per_order
        = r2.max_per_order := by
      simp only [Risk.record]
      split_ifs <;> exact rollDay_max_per_order r2 td
    have hdaily2 : (r2.record nn .buy td t t).max_daily = r2.max_daily := by
      simp only [Risk.record]
      split_ifs <;> exact rollDay_max_daily r2 td
    have hroll : (r2.record nn .buy td t t).rollDay td
        = r2.record nn .buy td t t := rollDay_self hday
    have hn0 : ¬ m ≤ 0 := not_le.mpr hm
    have hcapc : ¬ (r2.record nn .buy td t t).max_per_order < m := by
      rw [hcap2]
      exact not_lt.mpr hcap
    have hdailyc : ¬ (r2.record nn .buy td t t).max_daily
        < (r2.record nn .buy td t t).spent + m := by
      rw [hdaily2]
      push_neg
      rw [hroll] at hdaily
      exact hdaily
    have h58 : (0 : ℚ) < t + 60 - (t + 2) := by linarith
    simp only [Risk.allow, hroll]
    rw [if_neg hn0, if_neg hcapc, if_neg hdailyc, hdl]
    simp [h58]
    norm_num

theorem C3_risk_guard_witness :
    (riskDemo5.allow 5 .buy 0 500).1 = (false, .over_daily_cap) :=
  (C3_risk_guard riskDemo5 5 .buy 0 500).2.2.2.1 (by norm_num)
    (by norm_num [riskDemo5, riskDemo4, riskDemo3, riskDemo2, riskDemo1,
      riskDemo0, riskCycle, Risk.init, Risk.allow, Risk.record, Risk.rollDay])
    (by norm_num [riskDemo5, riskDemo4, riskDemo3, riskDemo2, riskDemo1,
      riskDemo0, riskCycle, Risk.init, Risk.allow, Risk.record, Risk.rollDay])

/-- `feed.qty_from_usd`: convert a USD notional to an asset quantity,
rounding to the exchange's decimals; a tiny positive quantity that rounds
to zero is replaced by one minimum step `10 ** (-decimals)`; raises on
nonpositive price. -/
def qty_from_usd (usd price : ℚ) (decimals : ℕ) : Except String ℚ :=
  if price ≤ 0 then .error "price must be > 0"
  else
    let qty := usd / price
    let q := pyRound qty decimals
    if q = 0 ∧ 0 < qty then .ok (1 / 10 ^ decimals)
    else .ok q

theorem pyRoundHalfEven_nonneg {x : ℚ} (hx : 0 ≤ x) :
    0 ≤ pyRoundHalfEven x := by
  simp only [pyRoundHalfEven]
  have hf : (0 : ℤ) ≤ ⌊x⌋ := Int.floor_nonneg.mpr hx
  split_ifs <;> omega

/-- C10.  For positive `usd` and `price`, `qty_from_usd` succeeds and
returns a quantity of at least one minimum step `10^(-decimals)` (hence
strictly positive): a rounded-to-zero quantity is bumped to the step, and
any other rounded value is a positive multiple of the step.  The returned
quantity's notional can exceed the requested `usd` (second conjunct:
$1 at price $3 with 0 decimals buys one whole unit, notional $3). -/
theorem C10_qty_from_usd_min_step (usd price : ℚ) (decimals : ℕ)
    (hu : 0 < usd) (hp : 0 < price) :
    (∃ q, qty_from_usd usd price decimals = .ok q ∧
        1 / 10 ^ decimals ≤ q ∧ 0 < q) ∧
      (qty_from_usd 1 3 0 = .ok 1 ∧ (1 : ℚ) < 1 * 3) := by
  constructor
  · have hqty : 0 < usd / price := div_pos hu hp
    by_cases hq : pyRound (usd / price) decimals = 0
    · refine ⟨1 / 10 ^ decimals, ?_, le_refl _, by positivity⟩
      unfold qty_from_usd
      rw [if_neg (not_le.mpr hp), if_pos ⟨hq, hqty⟩]
    · refine ⟨pyRound (usd / price) decimals, ?_, ?_, ?_⟩
      · unfold qty_from_usd
        rw [if_neg (not_le.mpr hp), if_neg (by
          rintro ⟨h0, -⟩
          exact hq h0)]
      · unfold pyRound at hq ⊢
        have hr : 0 ≤ pyRoundHalfEven (usd / price * 10 ^ decimals) :=
          pyRoundHalfEven_nonneg (by positivity)
        have hne : pyRoundHalfEven (usd / price * 10 ^ decimals) ≠ 0 := by
          intro h0
          apply hq
          rw [h0]
          norm_num
        have h1 : (1 : ℤ) ≤ pyRoundHalfEven (usd / price * 10 ^ decimals) := by
          omega
        have hpow : (0 : ℚ) < 10 ^ decimals := by positivity
        rw [div_le_div_iff₀ hpow hpow]
        have : (1 : ℚ) ≤ (pyRoundHalfEven (usd / price * 10 ^ decimals) : ℚ) := by
          exact_mod_cast h1
        nlinarith
      · unfold pyRound at hq ⊢
        have hr : 0 ≤ pyRoundHalfEven (usd / price * 10 ^ decimals) :=
          pyRoundHalfEven_nonneg (by positivity)
        have hne : pyRoundHalfEven (usd / price * 10 ^ decimals) ≠ 0 := by
          intro h0
          apply hq
          rw [h0]
          norm_num
        have h1 : (1 : ℤ) ≤ pyRoundHalfEven (usd / price * 10 ^ decimals) := by
          omega
        have : (1 : ℚ) ≤ (pyRoundHalfEven (usd / price * 10 ^ decimals) : ℚ) := by
          exact_mod_cast h1
        positivity
  · constructor
    · norm_num [qty_from_usd, pyRound, pyRoundHalfEven]
    · norm_num

theorem C10_qty_from_usd_min_step_witness :
    ∃ q, qty_from_usd 1 3 8 = .ok q ∧ (1 : ℚ) / 10 ^ 8 ≤ q ∧ 0 < q :=
  (C10_qty_from_usd_min_step 1 3 8 (by norm_num) (by norm_num)).1
